import Mathlib

/-!
Verification of the code-reviewer CLI (src/main.go) against its
natural-language specification.  The pure, decision-making parts of the
program are embedded below over `List Char` (one `Char` per rune; every
string the claims touch is ASCII around the interesting positions, where
Go's byte indices and rune indices agree):

* the Go `strings` helpers the program uses (`TrimSpace`, `Fields`,
  `Split`, `Join`, `LastIndex`, `Replace` with count 1, `TrimPrefix`,
  `TrimSuffix`, `Contains`, `ToLower`) and `strconv.Atoi`;
* `GitLabReviewer.ListReviews`'s per-line text parsing (`parseLine`,
  `listReviewsText`);
* `getGitRepoDetails`'s URL normalization and classification
  (`normalizeURL`, `getGitRepoDetails`);
* `detectPlatform`;
* the pure core of both `GetDiff` variants, taking an abstract external
  process result (exit code, stdout, stderr);
* the part of `main` that follows a listing result (`mainAfterList`).

Whitespace is modelled by the ASCII subset of `unicode.IsSpace`, which is
exact on all inputs considered here.  `strconv.Atoi`'s int64 overflow
failure is not modelled (all claims use small numbers).
-/

namespace CodeReviewer

/-- ASCII whitespace, the fragment of Go's `unicode.IsSpace` relevant here. -/
def isSpace (c : Char) : Bool :=
  c = ' ' || c = '\t' || c = '\n' || c = '\x0b' || c = '\x0c' || c = '\r'

/-- Drop leading whitespace (left half of Go's `strings.TrimSpace`). -/
def trimLeft : List Char → List Char
  | [] => []
  | c :: cs => if isSpace c then trimLeft cs else c :: cs

/-- Drop trailing whitespace (right half of Go's `strings.TrimSpace`). -/
def trimRight : List Char → List Char
  | [] => []
  | c :: cs =>
    if trimRight cs = [] ∧ isSpace c = true then [] else c :: trimRight cs

/-- Go's `strings.TrimSpace`. -/
def trimSpace (s : List Char) : List Char := trimRight (trimLeft s)

/-- Accumulator-style worker for `fields`; `acc` holds the current token
reversed. -/
def fieldsAux : List Char → List Char → List (List Char)
  | acc, [] => if acc = [] then [] else [acc.reverse]
  | acc, c :: cs =>
    if isSpace c = true then
      if acc = [] then fieldsAux [] cs else acc.reverse :: fieldsAux [] cs
    else fieldsAux (c :: acc) cs

/-- Go's `strings.Fields`: split around runs of whitespace. -/
def fields (s : List Char) : List (List Char) := fieldsAux [] s

def joinRest (sep : Char) : List (List Char) → List Char
  | [] => []
  | t :: ts => sep :: (t ++ joinRest sep ts)

/-- Go's `strings.Join` with a one-character separator. -/
def joinSep (sep : Char) : List (List Char) → List Char
  | [] => []
  | t :: ts => t ++ joinRest sep ts

/-- Go's `strings.Split` with a one-character separator: always yields
`count sep + 1` pieces, empty pieces included. -/
def splitOnChar (sep : Char) : List Char → List (List Char)
  | [] => [[]]
  | c :: cs =>
    if c = sep then [] :: splitOnChar sep cs
    else
      match splitOnChar sep cs with
      | [] => [[c]]
      | t :: ts => (c :: t) :: ts

/-- Go's `strings.LastIndex` for a one-character needle: index of the last
occurrence, `-1` when absent. -/
def lastIndexC (s : List Char) (c : Char) : Int :=
  match s with
  | [] => -1
  | a :: as =>
    if lastIndexC as c = -1 then (if a = c then 0 else -1)
    else lastIndexC as c + 1

/-- Go's `strings.Replace(s, old, new, 1)` for one-character old/new. -/
def replaceFirstChar (old nw : Char) : List Char → List Char
  | [] => []
  | c :: cs => if c = old then nw :: cs else c :: replaceFirstChar old nw cs

/-- Go's `strings.TrimPrefix`. -/
def trimPreL (p s : List Char) : List Char :=
  if p.isPrefixOf s = true then s.drop p.length else s

/-- Go's `strings.TrimSuffix`. -/
def trimSufL (p s : List Char) : List Char :=
  if p.isSuffixOf s = true then s.take (s.length - p.length) else s

/-- Go's `strings.Contains`. -/
def containsSub (hay needle : List Char) : Bool :=
  (List.range (hay.length + 1)).any (fun i => needle.isPrefixOf (hay.drop i))

/-- Go's `strings.ToLower` on the ASCII inputs considered here. -/
def toLowerL (s : List Char) : List Char := s.map Char.toLower

/-- View a Lean string literal as the rune list it denotes. -/
def str (s : String) : List Char := s.data

def digitVal (c : Char) : Option Nat :=
  if '0' ≤ c ∧ c ≤ '9' then some (c.toNat - '0'.toNat) else none

def digitsToNat (ds : List Char) : Option Nat :=
  if ds = [] then none
  else ds.foldl (fun acc c =>
    match acc, digitVal c with
    | some n, some d => some (n * 10 + d)
    | _, _ => none) (some 0)

/-- Go's `strconv.Atoi`: optional sign, then one or more digits, nothing
else (int64 overflow is not modelled; all claims use small values). -/
def atoi (s : List Char) : Option Int :=
  match s with
  | '+' :: rest => (digitsToNat rest).map (fun n => (n : Int))
  | '-' :: rest => (digitsToNat rest).map (fun n => -(n : Int))
  | _ => (digitsToNat s).map (fun n => (n : Int))

/-- The `Review` struct of src/main.go. -/
structure Review where
  id : Int
  number : Int
  title : List Char
  body : List Char
  authorLogin : List Char
  authorName : List Char
  diffURL : List Char
  numberGH : Int
deriving DecidableEq

/-- The `Review` literal built by `GitLabReviewer.ListReviews`: only
`Number` and `Title` are set, everything else is the Go zero value. -/
def mkGitLabReview (iid : Int) (title : List Char) : Review :=
  Review.mk 0 iid title [] [] [] [] 0

/-- The joined token tail `strings.Join(parts[2:], " ")` of a raw line,
after the same trim/tokenize steps `GitLabReviewer.ListReviews` applies. -/
def tailOf (raw : List Char) : List Char :=
  joinSep ' ' ((fields (trimSpace raw)).drop 2)

/-- The title heuristic of `GitLabReviewer.ListReviews` (src/main.go
lines 160-164): truncate at the last `(` when a well-ordered last `(`/`)`
pair exists, then `strings.TrimSpace`. -/
def titleFromTail (tail : List Char) : List Char :=
  if lastIndexC tail '(' ≠ -1 ∧ lastIndexC tail ')' ≠ -1 ∧
      lastIndexC tail '(' < lastIndexC tail ')' then
    trimSpace (tail.take (lastIndexC tail '(').toNat)
  else tail

/-- The same heuristic as the spec words it: only *trailing* whitespace is
trimmed from the truncated title.  Used to state the refinement claim. -/
def titleSpecRule (tail : List Char) : List Char :=
  if lastIndexC tail '(' ≠ -1 ∧ lastIndexC tail ')' ≠ -1 ∧
      lastIndexC tail '(' < lastIndexC tail ')' then
    trimRight (tail.take (lastIndexC tail '(').toNat)
  else tail

/-- One iteration of the line loop in `GitLabReviewer.ListReviews`
(src/main.go lines 130-174): `none` means the line is skipped. -/
def parseLine (raw : List Char) : Option Review :=
  if trimSpace raw = [] then none
  else if (str "Showing").isPrefixOf (trimSpace raw) = true then none
  else if (str "!").isPrefixOf (trimSpace raw) = false then none
  else if (fields (trimSpace raw)).length < 4 then none
  else
    match atoi (trimPreL (str "!") ((fields (trimSpace raw)).getD 0 [])) with
    | none => none
    | some iid => some (mkGitLabReview iid (titleFromTail (tailOf raw)))

/-- `GitLabReviewer.ListReviews` applied to the raw stdout of the listing
command: split on newlines, parse each line, keep the successes in order. -/
def listReviewsText (out : List Char) : List Review :=
  (splitOnChar '\n' out).filterMap parseLine

/-- The URL normalization of `getGitRepoDetails` (src/main.go lines
280-290): trim, then rewrite the SSH `git@host:p` form or strip the
`https://` scheme, dropping a trailing `.git` in both branches. -/
def normalizeURL (raw : List Char) : List Char :=
  if (str "git@").isPrefixOf (trimSpace raw) = true then
    trimSufL (str ".git")
      (trimPreL (str "git@") (replaceFirstChar ':' '/' (trimSpace raw)))
  else if (str "https://").isPrefixOf (trimSpace raw) = true then
    trimSufL (str ".git") (trimPreL (str "https://") (trimSpace raw))
  else trimSpace raw

/-- The pure classification core of `getGitRepoDetails` (src/main.go lines
292-302), taking the raw `git config` output as input.  `Except.error`
models the function's error return (the spec's `MalformedRemoteError`). -/
def getGitRepoDetails (raw : List Char) :
    Except (List Char) (List Char × List Char) :=
  if (splitOnChar '/' (normalizeURL raw)).length < 3 then
    Except.error
      (str "URL do repositório Git inválida ou inesperada: " ++ normalizeURL raw)
  else if containsSub ((splitOnChar '/' (normalizeURL raw)).getD 0 [])
      (str "github.com") = true then
    Except.ok ((splitOnChar '/' (normalizeURL raw)).getD 1 [],
      (splitOnChar '/' (normalizeURL raw)).getD 2 [])
  else
    Except.ok (joinSep '/' ((splitOnChar '/' (normalizeURL raw)).drop 1), [])

/-- The pure core of `detectPlatform` (src/main.go lines 325-333), taking
the raw `git config` output: lowercase, then substring tests. -/
def detectPlatform (raw : List Char) : Except (List Char) (List Char) :=
  if containsSub (toLowerL raw) (str "github.com") = true then
    Except.ok (str "github")
  else if containsSub (toLowerL raw) (str "gitlab.com") = true then
    Except.ok (str "gitlab")
  else
    Except.error
      (str "plataforma não detectada. A URL do remote não contém github.com ou gitlab.com")

/-- Result of one external process invocation, as observed by the program:
exit code plus captured stdout and stderr. -/
structure ProcResult where
  exitCode : Nat
  stdout : List Char
  stderr : List Char
deriving DecidableEq

def natChars (n : Nat) : List Char := Nat.toDigits 10 n

/-- `GitHubReviewer.GetDiff` (src/main.go lines 86-95) after the external
call: on non-zero exit it returns the wrapping error whose text embeds the
process's stderr, otherwise the stdout verbatim. -/
def gitHubGetDiff (r : ProcResult) : Except (List Char) (List Char) :=
  if r.exitCode = 0 then Except.ok r.stdout
  else Except.error
    ((str "failed to execute `gh pr diff`: exit status " ++ natChars r.exitCode ++
      str "\nStderr: ") ++ r.stderr)

/-- `GitLabReviewer.GetDiff` (src/main.go lines 178-187), same shape. -/
def gitLabGetDiff (r : ProcResult) : Except (List Char) (List Char) :=
  if r.exitCode = 0 then Except.ok r.stdout
  else Except.error
    ((str "failed to execute `glab mr diff`: exit status " ++ natChars r.exitCode ++
      str "\nStderr: ") ++ r.stderr)

def intChars (n : Int) : List Char :=
  if n < 0 then '-' :: natChars n.natAbs else natChars n.toNat

/-- One entry of `promptItems` in `main` (src/main.go lines 232-240):
`fmt.Sprintf("#%d: %s", number, r.Title)` with the platform-dependent
number choice. -/
def promptItemFor (platform : List Char) (r : Review) : List Char :=
  ('#' :: intChars (if platform = str "github" then r.numberGH else r.number)) ++
    str ": " ++ r.title

/-- How a run of `main` proceeds once the listing call has returned
(src/main.go lines 222-247): a failed listing is fatal; an empty listing
prints the "no open reviews" notice and returns before the interactive
selection (and hence before any diff fetch or prompt composition); a
non-empty listing reaches the selection step with the formatted items. -/
inductive RunOutcome where
  | listingFailed : List Char → RunOutcome
  | noReviews : RunOutcome
  | selection : List (List Char) → RunOutcome
deriving DecidableEq

/-- The step of `main` that consumes the listing result (src/main.go lines
222-247). -/
def mainAfterList (platform : List Char) (res : Except (List Char) (List Review)) :
    RunOutcome :=
  match res with
  | Except.error e => RunOutcome.listingFailed e
  | Except.ok reviews =>
    if reviews.length = 0 then RunOutcome.noReviews
    else RunOutcome.selection (reviews.map (promptItemFor platform))

/-! ## General lemmas about the string helpers -/

theorem isPrefixOf_append_self (a b : List Char) : a.isPrefixOf (a ++ b) = true := by
  induction a with
  | nil => simp [List.isPrefixOf]
  | cons x t ih => simp [List.isPrefixOf, ih]

theorem isPrefixOf_self (l : List Char) : l.isPrefixOf l = true := by
  induction l with
  | nil => rfl
  | cons a t ih => simp [List.isPrefixOf, ih]

theorem trimPreL_append (p x : List Char) : trimPreL p (p ++ x) = x := by
  simp [trimPreL, isPrefixOf_append_self, List.drop_left]

theorem isSuffixOf_append_self (a b : List Char) : a.isSuffixOf (b ++ a) = true := by
  simp [List.isSuffixOf, List.reverse_append, isPrefixOf_append_self]

theorem trimSufL_append (p x : List Char) : trimSufL p (x ++ p) = x := by
  have hlen : (x ++ p).length - p.length = x.length := by simp
  simp [trimSufL, isSuffixOf_append_self, hlen, List.take_left]

theorem replaceFirstChar_append (old nw : Char) (p rest : List Char) (h : old ∉ p) :
    replaceFirstChar old nw (p ++ old :: rest) = p ++ nw :: rest := by
  induction p with
  | nil => simp [replaceFirstChar]
  | cons a t ih =>
    have ha : a ≠ old := by rintro rfl; exact h (List.mem_cons_self a t)
    have ht : old ∉ t := fun hm => h (List.mem_cons_of_mem a hm)
    simp [replaceFirstChar, ha, ih ht]

theorem trimRight_append_last (s : List Char) (c : Char) (h : isSpace c = false) :
    trimRight (s ++ [c]) = s ++ [c] := by
  induction s with
  | nil => simp [trimRight, h]
  | cons a t ih =>
    rw [List.cons_append, trimRight, ih]
    simp

theorem trimSpace_eq_trimRight (s : List Char) (h : ∀ c ∈ s.take 1, isSpace c = false) :
    trimSpace s = trimRight s := by
  cases s with
  | nil => rfl
  | cons c t =>
    have hc : isSpace c = false := h c (by simp)
    simp [trimSpace, trimLeft, hc]

theorem containsSub_append_right (a b : List Char) : containsSub (a ++ b) b = true := by
  unfold containsSub
  rw [List.any_eq_true]
  refine ⟨a.length, ?_, ?_⟩
  · simp [List.mem_range]
    omega
  · rw [List.drop_left]
    exact isPrefixOf_self b

theorem fieldsAux_tokens : ∀ (s acc : List Char), (∀ c ∈ acc, isSpace c = false) →
    ∀ t ∈ fieldsAux acc s, t ≠ [] ∧ ∀ c ∈ t, isSpace c = false := by
  intro s
  induction s with
  | nil =>
    intro acc hacc t ht
    by_cases h : acc = []
    · simp [fieldsAux, h] at ht
    · rw [fieldsAux, if_neg h] at ht
      rcases List.mem_singleton.1 ht with rfl
      refine ⟨by simpa using h, fun c hc => hacc c (by simpa using hc)⟩
  | cons a s ih =>
    intro acc hacc t ht
    by_cases hsp : isSpace a = true
    · by_cases h : acc = []
      · rw [fieldsAux, if_pos hsp, if_pos h] at ht
        exact ih [] (by simp) t ht
      · rw [fieldsAux, if_pos hsp, if_neg h] at ht
        rcases List.mem_cons.1 ht with rfl | ht
        · refine ⟨by simpa using h, fun c hc => hacc c (by simpa using hc)⟩
        · exact ih [] (by simp) t ht
    · rw [fieldsAux, if_neg hsp] at ht
      refine ih (a :: acc) ?_ t ht
      intro c hc
      rcases List.mem_cons.1 hc with rfl | hc
      · simpa using hsp
      · exact hacc c hc

theorem fields_tokens (s : List Char) :
    ∀ t ∈ fields s, t ≠ [] ∧ ∀ c ∈ t, isSpace c = false :=
  fieldsAux_tokens s [] (by simp)

theorem splitOnChar_ne_nil (sep : Char) (s : List Char) : splitOnChar sep s ≠ [] := by
  cases s with
  | nil => simp [splitOnChar]
  | cons c cs =>
    rw [splitOnChar]
    by_cases h : c = sep
    · simp [h]
    · simp only [h, if_false, ite_false]
      cases hs : splitOnChar sep cs <;> simp

theorem splitOnChar_append_sep (sep : Char) (a b : List Char) :
    splitOnChar sep (a ++ sep :: b) = splitOnChar sep a ++ splitOnChar sep b := by
  induction a with
  | nil => simp [splitOnChar]
  | cons c cs ih =>
    by_cases h : c = sep
    · subst h
      rw [List.cons_append, splitOnChar, if_pos rfl, ih, splitOnChar, if_pos rfl,
        List.cons_append]
    · rcases hcs : splitOnChar sep cs with _ | ⟨t, ts⟩
      · exact absurd hcs (splitOnChar_ne_nil sep cs)
      · rw [List.cons_append, splitOnChar, if_neg h, ih, hcs, splitOnChar, if_neg h, hcs]
        simp

theorem splitOnChar_of_not_mem (sep : Char) (s : List Char) (h : sep ∉ s) :
    splitOnChar sep s = [s] := by
  induction s with
  | nil => rfl
  | cons c cs ih =>
    have hc : ¬ c = sep := by rintro rfl; exact h (List.mem_cons_self _ _)
    have hcs : sep ∉ cs := fun hm => h (List.mem_cons_of_mem _ hm)
    rw [splitOnChar, if_neg hc, ih hcs]

theorem eq_cons_of_isPrefixOf_single (c : Char) (l : List Char)
    (h : List.isPrefixOf [c] l = true) : ∃ t, l = c :: t := by
  cases l with
  | nil => simp [List.isPrefixOf] at h
  | cons a t =>
    simp [List.isPrefixOf] at h
    exact ⟨t, by rw [h]⟩

/-! ## Lemmas about the line parser -/

theorem parseLine_eq_some (raw : List Char) (n : Int)
    (h1 : (str "!").isPrefixOf (trimSpace raw) = true)
    (h2 : ¬ (fields (trimSpace raw)).length < 4)
    (h3 : atoi (trimPreL (str "!") ((fields (trimSpace raw)).getD 0 [])) = some n) :
    parseLine raw = some (mkGitLabReview n (titleFromTail (tailOf raw))) := by
  obtain ⟨t, ht⟩ := eq_cons_of_isPrefixOf_single '!' (trimSpace raw) h1
  have hne : trimSpace raw ≠ [] := by rw [ht]; simp
  have hshow : (str "Showing").isPrefixOf (trimSpace raw) = false := by
    rw [ht]; rfl
  unfold parseLine
  rw [if_neg hne, if_neg (by simp [hshow]), if_neg (by simp [h1]), if_neg h2, h3]

theorem tailOf_head_not_space (raw : List Char) :
    ∀ c ∈ (tailOf raw).take 1, isSpace c = false := by
  unfold tailOf
  rcases hd : (fields (trimSpace raw)).drop 2 with _ | ⟨t, ts⟩
  · simp [joinSep]
  · have htmem : t ∈ fields (trimSpace raw) := by
      have hm : t ∈ (fields (trimSpace raw)).drop 2 := by
        rw [hd]; exact List.mem_cons_self _ _
      exact List.mem_of_mem_drop hm
    obtain ⟨hne, hchars⟩ := fields_tokens (trimSpace raw) t htmem
    cases t with
    | nil => exact absurd rfl hne
    | cons c t' =>
      intro x hx
      rw [joinSep] at hx
      simp at hx
      rw [hx]
      exact hchars c (List.mem_cons_self _ _)

theorem titleFromTail_eq_spec (tail : List Char)
    (h : ∀ c ∈ tail.take 1, isSpace c = false) :
    titleFromTail tail = titleSpecRule tail := by
  unfold titleFromTail titleSpecRule
  split
  · apply trimSpace_eq_trimRight
    intro c hc
    rcases hk : (lastIndexC tail '(').toNat with _ | m
    · rw [hk] at hc
      simp at hc
    · rw [hk, List.take_take] at hc
      have hmin : min 1 (m + 1) = 1 := by omega
      rw [hmin] at hc
      exact h c hc
  · rfl

/-! ## Claim theorems -/

/-- Claim C1: for every input line that survives the skip checks (trimmed,
starts with the marker `!`, at least 4 whitespace-delimited tokens, token 0
parses as an integer after stripping the marker), the produced `Review`'s
title is determined by the last-parenthesis heuristic stated by the spec
(`titleSpecRule`): if the joined tail holds a last `(` before a last `)`,
the title is the prefix of the tail before that `(` with trailing
whitespace trimmed, and otherwise the whole tail unchanged.  In particular
the two example lines of the spec produce number 42 / title "Fix login
bug" and number 7 / title "Refactor parser". -/
theorem c1_title_reconstruction :
    (∀ (line : List Char) (n : Int),
      (str "!").isPrefixOf (trimSpace line) = true →
      4 ≤ (fields (trimSpace line)).length →
      atoi (trimPreL (str "!") ((fields (trimSpace line)).getD 0 [])) = some n →
      parseLine line = some (mkGitLabReview n (titleSpecRule (tailOf line)))) ∧
    parseLine (str "!42 group/repo Fix login bug (fix-login ← main)") =
      some (mkGitLabReview 42 (str "Fix login bug")) ∧
    parseLine (str "!7 group/repo Refactor parser") =
      some (mkGitLabReview 7 (str "Refactor parser")) := by
  refine ⟨?_, by decide, by decide⟩
  intro line n h1 h2 h3
  rw [parseLine_eq_some line n h1 (by omega) h3,
    titleFromTail_eq_spec _ (tailOf_head_not_space line)]

theorem c1_witness :
    parseLine (str "!42 group/repo Fix login bug (fix-login ← main)") =
      some (mkGitLabReview 42
        (titleSpecRule (tailOf (str "!42 group/repo Fix login bug (fix-login ← main)")))) :=
  c1_title_reconstruction.1 (str "!42 group/repo Fix login bug (fix-login ← main)") 42
    (by decide) (by decide) (by decide)

/-- Claim C2: the per-line parsing of `GitLabReviewer.ListReviews` is total
(the Lean model is a total function) and degrades gracefully: a trimmed
line with fewer than 4 whitespace-delimited tokens is skipped, a line whose
first token does not parse as an integer after stripping `!` is skipped,
lines are parsed independently of each other (the listing over an output
containing a newline is the concatenation of the listings of the two
halves), and a single skipped line contributes nothing while all other
lines of the same input are still parsed. -/
theorem c2_skip_safety :
    (∀ line : List Char,
      (fields (trimSpace line)).length < 4 → parseLine line = none) ∧
    (∀ line : List Char,
      atoi (trimPreL (str "!") ((fields (trimSpace line)).getD 0 [])) = none →
      parseLine line = none) ∧
    (∀ o1 o2 : List Char,
      listReviewsText (o1 ++ '\n' :: o2) = listReviewsText o1 ++ listReviewsText o2) ∧
    (∀ m : List Char, '\n' ∉ m → parseLine m = none → listReviewsText m = []) := by
  refine ⟨?_, ?_, ?_, ?_⟩
  · intro line h
    unfold parseLine
    by_cases e1 : trimSpace line = []
    · rw [if_pos e1]
    · rw [if_neg e1]
      by_cases e2 : (str "Showing").isPrefixOf (trimSpace line) = true
      · rw [if_pos e2]
      · rw [if_neg e2]
        by_cases e3 : (str "!").isPrefixOf (trimSpace line) = false
        · rw [if_pos e3]
        · rw [if_neg e3, if_pos h]
  · intro line h
    unfold parseLine
    by_cases e1 : trimSpace line = []
    · rw [if_pos e1]
    · rw [if_neg e1]
      by_cases e2 : (str "Showing").isPrefixOf (trimSpace line) = true
      · rw [if_pos e2]
      · rw [if_neg e2]
        by_cases e3 : (str "!").isPrefixOf (trimSpace line) = false
        · rw [if_pos e3]
        · rw [if_neg e3]
          by_cases e4 : (fields (trimSpace line)).length < 4
          · rw [if_pos e4]
          · rw [if_neg e4, h]
  · intro o1 o2
    unfold listReviewsText
    rw [splitOnChar_append_sep, List.filterMap_append]
  · intro m hm hp
    unfold listReviewsText
    rw [splitOnChar_of_not_mem _ _ hm]
    simp [hp]

theorem c2_witness :
    parseLine (str "!1 repo only") = none ∧
    parseLine (str "!x aaa bbb ccc") = none ∧
    listReviewsText (str "abc" ++ '\n' :: str "def") =
      listReviewsText (str "abc") ++ listReviewsText (str "def") ∧
    listReviewsText (str "!x aaa bbb ccc") = [] :=
  ⟨c2_skip_safety.1 (str "!1 repo only") (by decide),
   c2_skip_safety.2.1 (str "!x aaa bbb ccc") (by decide),
   c2_skip_safety.2.2.1 (str "abc") (str "def"),
   c2_skip_safety.2.2.2 (str "!x aaa bbb ccc") (by decide)
     (c2_skip_safety.2.1 (str "!x aaa bbb ccc") (by decide))⟩

/-- Claim C9: for every line that passes all skip checks and whose
post-token-1 tail is entirely one parenthesized group (the tail's last `(`
is its first character and the last `)` comes after it), the parser yields
a `Review` whose title is the empty string; concretely the line
"!5 group/repo (fix-login ← main)" yields number 5 and an empty title. -/
theorem c9_all_paren_empty_title :
    (∀ (line : List Char) (n : Int),
      (str "!").isPrefixOf (trimSpace line) = true →
      4 ≤ (fields (trimSpace line)).length →
      atoi (trimPreL (str "!") ((fields (trimSpace line)).getD 0 [])) = some n →
      lastIndexC (tailOf line) '(' = 0 →
      0 < lastIndexC (tailOf line) ')' →
      parseLine line = some (mkGitLabReview n [])) ∧
    parseLine (str "!5 group/repo (fix-login ← main)") =
      some (mkGitLabReview 5 []) := by
  refine ⟨?_, by decide⟩
  intro line n h1 h2 h3 hbs hbe
  have hcond : lastIndexC (tailOf line) '(' ≠ -1 ∧
      lastIndexC (tailOf line) ')' ≠ -1 ∧
      lastIndexC (tailOf line) '(' < lastIndexC (tailOf line) ')' :=
    ⟨by omega, by omega, by omega⟩
  have ht : titleFromTail (tailOf line) = [] := by
    unfold titleFromTail
    rw [if_pos hcond, hbs]
    rfl
  rw [parseLine_eq_some line n h1 (by omega) h3, ht]

theorem c9_witness :
    parseLine (str "!8 group/repo (alpha beta)") = some (mkGitLabReview 8 []) :=
  c9_all_paren_empty_title.1 (str "!8 group/repo (alpha beta)") 8
    (by decide) (by decide) (by decide) (by decide) (by decide)

/-- Claim C3: for every remote URL whose normalized form has at least 3
slash-separated segments and whose host segment contains "github.com", the
classifier returns segments[1] as the owner and segments[2] as the repo;
concretely "git@github.com:acme/widgets.git" is detected as the GitHub
platform and classified as ("acme", "widgets"). -/
theorem c3_github_owner_repo :
    (∀ url : List Char,
      3 ≤ (splitOnChar '/' (normalizeURL url)).length →
      containsSub ((splitOnChar '/' (normalizeURL url)).getD 0 [])
        (str "github.com") = true →
      getGitRepoDetails url =
        Except.ok ((splitOnChar '/' (normalizeURL url)).getD 1 [],
          (splitOnChar '/' (normalizeURL url)).getD 2 [])) ∧
    detectPlatform (str "git@github.com:acme/widgets.git") =
      Except.ok (str "github") ∧
    getGitRepoDetails (str "git@github.com:acme/widgets.git") =
      Except.ok (str "acme", str "widgets") := by
  refine ⟨?_, by rfl, by rfl⟩
  intro url h3 hgh
  unfold getGitRepoDetails
  rw [if_neg (by omega), if_pos hgh]

theorem c3_witness :
    getGitRepoDetails (str "git@github.com:acme/widgets.git") =
      Except.ok
        ((splitOnChar '/' (normalizeURL (str "git@github.com:acme/widgets.git"))).getD 1 [],
          (splitOnChar '/' (normalizeURL (str "git@github.com:acme/widgets.git"))).getD 2 []) :=
  c3_github_owner_repo.1 (str "git@github.com:acme/widgets.git") (by decide) (by decide)

/-- Claim C4: for every remote URL whose normalized form has at least 3
slash-separated segments and whose host segment does not contain
"github.com", the classifier returns all segments after the host joined
with `/` and an empty second component; concretely
"https://gitlab.com/acme/team/widgets.git" is detected as the GitLab
platform and classified as ("acme/team/widgets", ""). -/
theorem c4_gitlab_full_path :
    (∀ url : List Char,
      3 ≤ (splitOnChar '/' (normalizeURL url)).length →
      containsSub ((splitOnChar '/' (normalizeURL url)).getD 0 [])
        (str "github.com") = false →
      getGitRepoDetails url =
        Except.ok (joinSep '/' ((splitOnChar '/' (normalizeURL url)).drop 1), [])) ∧
    detectPlatform (str "https://gitlab.com/acme/team/widgets.git") =
      Except.ok (str "gitlab") ∧
    getGitRepoDetails (str "https://gitlab.com/acme/team/widgets.git") =
      Except.ok (str "acme/team/widgets", []) := by
  refine ⟨?_, by rfl, by rfl⟩
  intro url h3 hng
  unfold getGitRepoDetails
  rw [if_neg (by omega), if_neg (by simp only [hng]; decide)]

theorem c4_witness :
    getGitRepoDetails (str "https://gitlab.com/acme/team/widgets.git") =
      Except.ok
        (joinSep '/'
          ((splitOnChar '/' (normalizeURL (str "https://gitlab.com/acme/team/widgets.git"))).drop 1),
          []) :=
  c4_gitlab_full_path.1 (str "https://gitlab.com/acme/team/widgets.git")
    (by decide) (by decide)

/-- Claim C5 counterexample: the claim promises the `user@` prefix of any
SSH-style URL is stripped, but `getGitRepoDetails` only rewrites URLs that
start with the literal "git@".  For "deploy@gitlab.com:acme/widgets.git"
the normalization leaves the URL unchanged (in particular it does not
produce "gitlab.com/acme/widgets"), and the classifier then fails with the
malformed-URL error because the unchanged URL has fewer than 3 slash
segments. -/
theorem c5_counterexample :
    normalizeURL (str "deploy@gitlab.com:acme/widgets.git") =
      str "deploy@gitlab.com:acme/widgets.git" ∧
    normalizeURL (str "deploy@gitlab.com:acme/widgets.git") ≠
      str "gitlab.com/acme/widgets" ∧
    getGitRepoDetails (str "deploy@gitlab.com:acme/widgets.git") =
      Except.error (str "URL do repositório Git inválida ou inesperada: " ++
        str "deploy@gitlab.com:acme/widgets.git") :=
  ⟨by rfl, by decide, by rfl⟩

/-- Claim C5 as amended: only for SSH-style remote URLs of the form
`git@host:owner/repo.git` (user name exactly "git", host without a `:`)
does the normalization replace the first `:` with `/`, strip the leading
`git@` prefix and the trailing `.git` suffix, producing the slash-delimited
form `host/owner/repo` before the segment split. -/
theorem c5_ssh_normalization (host owner repo : List Char) (hc : ':' ∉ host) :
    normalizeURL (str "git@" ++ host ++ ':' :: owner ++ '/' :: repo ++ str ".git") =
      host ++ '/' :: owner ++ '/' :: repo := by
  have e1 : str ".git" = ['.', 'g', 'i', 't'] := rfl
  have hsplit : str "git@" ++ host ++ ':' :: owner ++ '/' :: repo ++ str ".git" =
      (str "git@" ++ host ++ ':' :: owner ++ '/' :: repo ++ ['.', 'g', 'i']) ++ ['t'] := by
    rw [e1]
    simp [List.append_assoc]
  have hleft : trimLeft (str "git@" ++ host ++ ':' :: owner ++ '/' :: repo ++ str ".git") =
      str "git@" ++ host ++ ':' :: owner ++ '/' :: repo ++ str ".git" := rfl
  have htrim : trimSpace (str "git@" ++ host ++ ':' :: owner ++ '/' :: repo ++ str ".git") =
      str "git@" ++ host ++ ':' :: owner ++ '/' :: repo ++ str ".git" := by
    unfold trimSpace
    rw [hleft, hsplit, trimRight_append_last _ 't' (by decide)]
  have hbr : (str "git@").isPrefixOf
      (str "git@" ++ host ++ ':' :: owner ++ '/' :: repo ++ str ".git") = true :=
    isPrefixOf_append_self _ _
  have hnotc : ':' ∉ str "git@" ++ host := by
    intro hmem
    rcases List.mem_append.1 hmem with h | h
    · revert h; decide
    · exact hc h
  have hrep : replaceFirstChar ':' '/'
      (str "git@" ++ host ++ ':' :: owner ++ '/' :: repo ++ str ".git") =
      str "git@" ++ host ++ '/' :: owner ++ '/' :: repo ++ str ".git" := by
    have hl : str "git@" ++ host ++ ':' :: owner ++ '/' :: repo ++ str ".git" =
        (str "git@" ++ host) ++ ':' :: (owner ++ '/' :: repo ++ str ".git") := by
      simp [List.append_assoc]
    have hr : str "git@" ++ host ++ '/' :: owner ++ '/' :: repo ++ str ".git" =
        (str "git@" ++ host) ++ '/' :: (owner ++ '/' :: repo ++ str ".git") := by
      simp [List.append_assoc]
    rw [hl, hr]
    exact replaceFirstChar_append ':' '/' _ _ hnotc
  have hpre : trimPreL (str "git@")
      (str "git@" ++ host ++ '/' :: owner ++ '/' :: repo ++ str ".git") =
      host ++ '/' :: owner ++ '/' :: repo ++ str ".git" :=
    trimPreL_append _ _
  have hsuf : trimSufL (str ".git") (host ++ '/' :: owner ++ '/' :: repo ++ str ".git") =
      host ++ '/' :: owner ++ '/' :: repo := by
    have h : host ++ '/' :: owner ++ '/' :: repo ++ str ".git" =
        (host ++ '/' :: owner ++ '/' :: repo) ++ str ".git" := by
      simp [List.append_assoc]
    rw [h]
    exact trimSufL_append _ _
  unfold normalizeURL
  rw [htrim, if_pos hbr, hrep, hpre, hsuf]

theorem c5_witness :
    normalizeURL (str "git@gitlab.com:acme/widgets.git") =
      str "gitlab.com/acme/widgets" := by
  have heq : str "git@gitlab.com:acme/widgets.git" =
      str "git@" ++ str "gitlab.com" ++ ':' :: str "acme" ++ '/' :: str "widgets" ++
        str ".git" := by decide
  have hres : str "gitlab.com" ++ '/' :: str "acme" ++ '/' :: str "widgets" =
      str "gitlab.com/acme/widgets" := by decide
  rw [heq, c5_ssh_normalization _ _ _ (by decide), hres]

/-- Claim C6: for both `GetDiff` variants, a non-zero exit status of the
external diff process yields an ordinary error value whose message embeds
the process's stderr text (the model is a total function, so the failed
call never terminates the run abnormally), and a zero exit status returns
the process's stdout — the diff text — verbatim. -/
theorem c6_getdiff_stderr :
    ∀ r : ProcResult,
      (r.exitCode ≠ 0 →
        (∃ m, gitHubGetDiff r = Except.error m ∧ containsSub m r.stderr = true) ∧
        (∃ m, gitLabGetDiff r = Except.error m ∧ containsSub m r.stderr = true)) ∧
      (r.exitCode = 0 →
        gitHubGetDiff r = Except.ok r.stdout ∧ gitLabGetDiff r = Except.ok r.stdout) := by
  intro r
  constructor
  · intro h
    constructor
    · refine ⟨(str "failed to execute `gh pr diff`: exit status " ++ natChars r.exitCode ++
        str "\nStderr: ") ++ r.stderr, ?_, containsSub_append_right _ _⟩
      unfold gitHubGetDiff
      rw [if_neg h]
    · refine ⟨(str "failed to execute `glab mr diff`: exit status " ++ natChars r.exitCode ++
        str "\nStderr: ") ++ r.stderr, ?_, containsSub_append_right _ _⟩
      unfold gitLabGetDiff
      rw [if_neg h]
  · intro h
    constructor <;> simp [gitHubGetDiff, gitLabGetDiff, h]

theorem c6_witness :
    (∃ m, gitHubGetDiff (ProcResult.mk 1 [] (str "boom")) = Except.error m ∧
      containsSub m (str "boom") = true) ∧
    gitHubGetDiff (ProcResult.mk 0 (str "the diff") []) = Except.ok (str "the diff") :=
  ⟨((c6_getdiff_stderr (ProcResult.mk 1 [] (str "boom"))).1 (by decide)).1,
   ((c6_getdiff_stderr (ProcResult.mk 0 (str "the diff") [])).2 (by decide)).1⟩

/-- Claim C7: the classifier fails with the malformed-remote error exactly
when the normalized URL splits into fewer than 3 slash-separated segments;
with at least 3 segments it always returns a result and never raises this
error. -/
theorem c7_malformed_remote :
    ∀ url : List Char,
      ((splitOnChar '/' (normalizeURL url)).length < 3 →
        getGitRepoDetails url =
          Except.error (str "URL do repositório Git inválida ou inesperada: " ++
            normalizeURL url)) ∧
      (3 ≤ (splitOnChar '/' (normalizeURL url)).length →
        ∃ p, getGitRepoDetails url = Except.ok p) := by
  intro url
  constructor
  · intro h
    unfold getGitRepoDetails
    rw [if_pos h]
  · intro h
    by_cases hg : containsSub ((splitOnChar '/' (normalizeURL url)).getD 0 [])
        (str "github.com") = true
    · exact ⟨_, by unfold getGitRepoDetails; rw [if_neg (by omega), if_pos hg]⟩
    · exact ⟨_, by unfold getGitRepoDetails; rw [if_neg (by omega), if_neg hg]⟩

theorem c7_witness :
    getGitRepoDetails (str "x") =
      Except.error (str "URL do repositório Git inválida ou inesperada: " ++
        normalizeURL (str "x")) ∧
    ∃ p, getGitRepoDetails (str "https://gitlab.com/a/b") = Except.ok p :=
  ⟨(c7_malformed_remote (str "x")).1 (by decide),
   (c7_malformed_remote (str "https://gitlab.com/a/b")).2 (by decide)⟩

/-- Claim C8: a successful but empty listing is a valid terminal state of
`main`, not an error: the run reaches the no-reviews notice and returns
before the interactive selection (hence before any diff fetch and before
printing a composed prompt), and this outcome occurs for a successful
listing exactly when the listing is empty. -/
theorem c8_empty_listing_short_circuit :
    (∀ platform : List Char,
      mainAfterList platform (Except.ok []) = RunOutcome.noReviews) ∧
    (∀ (platform : List Char) (reviews : List Review),
      mainAfterList platform (Except.ok reviews) = RunOutcome.noReviews ↔
        reviews = []) := by
  constructor
  · intro p
    rfl
  · intro p rs
    constructor
    · intro h
      cases rs with
      | nil => rfl
      | cons r rest => simp [mainAfterList] at h
    · rintro rfl
      rfl

theorem c8_witness :
    mainAfterList (str "gitlab") (Except.ok []) = RunOutcome.noReviews :=
  c8_empty_listing_short_circuit.1 (str "gitlab")

/-- Claim C10: `detectPlatform` lowercases the remote URL before its
substring test, while `getGitRepoDetails` tests the host segment
case-sensitively; so for a URL in which "github.com" appears only mixed
case, the platform is detected as GitHub but the path extraction takes the
non-GitHub branch, returning the slash-joined full path with an empty repo
name.  Concretely "https://GitHub.com/acme/widgets.git" gives platform
"github" but classification ("acme/widgets", ""). -/
theorem c10_case_sensitivity_mismatch :
    (∀ url : List Char,
      containsSub (toLowerL url) (str "github.com") = true →
      3 ≤ (splitOnChar '/' (normalizeURL url)).length →
      containsSub ((splitOnChar '/' (normalizeURL url)).getD 0 [])
        (str "github.com") = false →
      detectPlatform url = Except.ok (str "github") ∧
      getGitRepoDetails url =
        Except.ok (joinSep '/' ((splitOnChar '/' (normalizeURL url)).drop 1), [])) ∧
    detectPlatform (str "https://GitHub.com/acme/widgets.git") =
      Except.ok (str "github") ∧
    getGitRepoDetails (str "https://GitHub.com/acme/widgets.git") =
      Except.ok (str "acme/widgets", []) := by
  refine ⟨?_, by rfl, by rfl⟩
  intro url hlow h3 hng
  constructor
  · unfold detectPlatform
    rw [if_pos hlow]
  · unfold getGitRepoDetails
    rw [if_neg (by omega), if_neg (by simp only [hng]; decide)]

theorem c10_witness :
    detectPlatform (str "https://GitHub.com/acme/widgets.git") =
      Except.ok (str "github") ∧
    getGitRepoDetails (str "https://GitHub.com/acme/widgets.git") =
      Except.ok
        (joinSep '/'
          ((splitOnChar '/' (normalizeURL (str "https://GitHub.com/acme/widgets.git"))).drop 1),
          []) :=
  c10_case_sensitivity_mismatch.1 (str "https://GitHub.com/acme/widgets.git")
    (by decide) (by decide) (by decide)

end CodeReviewer
